import Mathlib

/-!
Verification of the bosminer work-dispatch pipeline.

Shallow embedding of:
  * `open/bosminer/src/workhub.rs` — the work generator (`WorkGenerator`),
    the job channel (`JobSender` / `JobQueue`) and version rolling;
  * `open/bosminer/bosminer-erupter/src/device.rs` — the Block Erupter
    backend adapter (`BlockErupter::wait_for_nonce`, `BlockErupterSolver`).

Machine integers are modelled as `Nat` with explicit `% 2^w` / bound checks
exactly where the source performs wrapping or checked arithmetic.
`Arc::ptr_eq` on jobs is modelled by a `jobId` field: two `Arc`s to the same
allocation share a `jobId`, clones into distinct allocations differ.
-/

set_option maxRecDepth 10000

/-- Model of `Arc<dyn BitcoinJob>`: the job data plus an allocation identity
(`jobId`) used for `Arc::ptr_eq`. `previous_hash` / `merkle_root` are byte
lists (32 bytes each in well-formed jobs). -/
structure Job where
  jobId : Nat
  version : Nat
  previous_hash : List Nat
  merkle_root : List Nat
  ntime : Nat
  bits : Nat
deriving DecidableEq

/-- Constant `MASK: u32 = 0x1fffe000` from `WorkGenerator::next_versions`. -/
def MASK : Nat := 0x1fffe000

/-- Value of `!MASK` as a `u32` (bitwise complement of `MASK` in 32 bits). -/
def NOT_MASK : Nat := 0xe0001fff

/-- Constant `SHIFT: u32 = 13` from `WorkGenerator::next_versions`. -/
def SHIFT : Nat := 13

/-! ## SHA-256 (bitcoin_hashes `sha256::HashEngine`)

The generator feeds 64-byte blocks to a `sha256::Hash::engine()` and reads
`engine.midstate()`. We model the engine state as the list of its eight
32-bit state words; `sha256Compress` is the standard SHA-256 compression of
one 512-bit block (including the final feed-forward addition, as performed by
the engine's `process_block`). -/

/-- Truncation to 32 bits (wrapping `u32` arithmetic). -/
def w32 (n : Nat) : Nat := n % 4294967296

/-- Right rotation of a 32-bit word. -/
def rotr (n x : Nat) : Nat := x / 2 ^ n + (x % 2 ^ n) * 2 ^ (32 - n)

def smallSigma0 (x : Nat) : Nat := rotr 7 x ^^^ rotr 18 x ^^^ (x >>> 3)

def smallSigma1 (x : Nat) : Nat := rotr 17 x ^^^ rotr 19 x ^^^ (x >>> 10)

def bigSigma0 (x : Nat) : Nat := rotr 2 x ^^^ rotr 13 x ^^^ rotr 22 x

def bigSigma1 (x : Nat) : Nat := rotr 6 x ^^^ rotr 11 x ^^^ rotr 25 x

def shaCh (x y z : Nat) : Nat := (x &&& y) ^^^ ((0xFFFFFFFF ^^^ x) &&& z)

def shaMaj (x y z : Nat) : Nat := (x &&& y) ^^^ (x &&& z) ^^^ (y &&& z)

/-- SHA-256 initial state words H0..H7 (decimal). -/
def shaInit : List Nat :=
  [1779033703, 3144134277, 1013904242, 2773480762,
   1359893119, 2600822924, 528734635, 1541459225]

/-- SHA-256 round constants K0..K63 (decimal). -/
def shaK : List Nat :=
  [1116352408, 1899447441, 3049323471, 3921009573, 961987163,
   1508970993, 2453635748, 2870763221, 3624381080, 310598401,
   607225278, 1426881987, 1925078388, 2162078206, 2614888103,
   3248222580, 3835390401, 4022224774, 264347078, 604807628,
   770255983, 1249150122, 1555081692, 1996064986, 2554220882,
   2821834349, 2952996808, 3210313671, 3336571891, 3584528711,
   113926993, 338241895, 666307205, 773529912, 1294757372,
   1396182291, 1695183700, 1986661051, 2177026350, 2456956037,
   2730485921, 2820302411, 3259730800, 3345764771, 3516065817,
   3600352804, 4094571909, 275423344, 430227734, 506948616,
   659060556, 883997877, 958139571, 1322822218, 1537002063,
   1747873779, 1955562222, 2024104815, 2227730452, 2361852424,
   2428436474, 2756734187, 3204031479, 3329325298]

/-- Parse a byte list into 32-bit big-endian words (SHA-256 block layout). -/
def beBytesToWords : List Nat → List Nat
  | b0 :: b1 :: b2 :: b3 :: rest =>
      (((b0 * 256 + b1) * 256 + b2) * 256 + b3) :: beBytesToWords rest
  | _ => []

/-- Next message-schedule word from the window `[w_16, ..., w_1]` of the last
16 words. -/
def schedStep (win : List Nat) : Nat :=
  w32 (win.getD 0 0 + smallSigma0 (win.getD 1 0) + win.getD 9 0 +
    smallSigma1 (win.getD 14 0))

/-- Extend the message schedule by `k` words, rolling the 16-word window. -/
def schedAux : List Nat → Nat → List Nat
  | _, 0 => []
  | win, k + 1 =>
      let next := schedStep win
      next :: schedAux (win.tail ++ [next]) k

/-- The 64-word message schedule of one 16-word block. -/
def messageSchedule (block : List Nat) : List Nat :=
  block ++ schedAux block 48

/-- One SHA-256 round on the working variables `[a,b,c,d,e,f,g,h]`. -/
def shaRound (st : List Nat) (k w : Nat) : List Nat :=
  match st with
  | [a, b, c, d, e, f, g, h] =>
      let t1 := w32 (h + bigSigma1 e + shaCh e f g + k + w)
      let t2 := w32 (bigSigma0 a + shaMaj a b c)
      [w32 (t1 + t2), a, b, c, w32 (d + t1), e, f, g]
  | other => other

/-- SHA-256 compression of one 64-byte block (given as bytes) into the state,
with the final feed-forward addition. This is what one `engine.input(buffer)`
of exactly 64 bytes does to the engine state. -/
def sha256Compress (st : List Nat) (blockBytes : List Nat) : List Nat :=
  let ws := messageSchedule (beBytesToWords blockBytes)
  let fin := (shaK.zip ws).foldl (fun acc kw => shaRound acc kw.1 kw.2) st
  (st.zip fin).map (fun p => w32 (p.1 + p.2))

/-- Little-endian bytes of a `u32` (`LittleEndian::write_u32`). -/
def u32LE (v : Nat) : List Nat :=
  [v % 256, v / 256 % 256, v / 65536 % 256, v / 16777216 % 256]

/-- The 64-byte buffer prepared by `WorkGenerator::generate` for one version:
`version (LE) ‖ previous_hash ‖ merkle_root[0..28]`. -/
def mkBlockBytes (job : Job) (version : Nat) : List Nat :=
  u32LE version ++ job.previous_hash ++ job.merkle_root.take 28

/-- Model of `hal::Midstate`: the version that produced it plus the engine state. -/
structure Midstate where
  version : Nat
  state : List Nat
deriving DecidableEq

/-- Model of `hal::MiningWork` as built by `WorkGenerator::generate`. -/
structure MiningWork where
  job : Job
  midstates : List Midstate
  ntime : Nat
deriving DecidableEq

/-- The midstate list built by the loop in `WorkGenerator::generate`: a single
engine is created before the loop and re-used, so the state is carried
(chained) from one version's block to the next. -/
def midstatesChainedFrom (job : Job) (st : List Nat) : List Nat → List Midstate
  | [] => []
  | v :: rest =>
      let st' := sha256Compress st (mkBlockBytes job v)
      { version := v, state := st' } :: midstatesChainedFrom job st' rest

def midstatesChained (job : Job) (versions : List Nat) : List Midstate :=
  midstatesChainedFrom job shaInit versions

/-- The midstate of a version's own 64-byte block alone, fed to a fresh
engine. This is the computation the specification describes for each of the
`M` versions ("feed a SHA-256 engine with 64 bytes ... extract the
midstate"). -/
def midstateOfOwnBlock (job : Job) (version : Nat) : List Nat :=
  sha256Compress shaInit (mkBlockBytes job version)

/-! ## The work generator state machine (`workhub.rs`)

`GenSt` combines the `WorkGenerator` fields with the shared job channel
(`Arc<Mutex<Option<Arc<dyn BitcoinJob>>>>`) and the capacity-1 new-job event
queue. `eventPending` — an event sits in the queue; `eventClosed` — the
sender side of the event stream was dropped. -/
structure GenSt where
  current : Option Job
  midstates : Nat
  next_version : Nat
  base_version : Nat
  channel : Option Job
  eventPending : Bool
  eventClosed : Bool
deriving DecidableEq

/-- The generator as wired by `WorkHub::new`: `WorkGenerator::new` sets
`midstates = 1`, `next_version = 0`, `base_version = 0`, no current job; the
job channel starts empty with no pending event. -/
def initSt : GenSt :=
  { current := none, midstates := 1, next_version := 0, base_version := 0,
    channel := none, eventPending := false, eventClosed := false }

/-- Model of `JobSender::send`: replace the slot; if it was empty, push one new-job
event. -/
def publish (j : Job) (s : GenSt) : GenSt :=
  if s.channel.isNone then { s with channel := some j, eventPending := true }
  else { s with channel := some j }

/-- Dropping the job-event sender (upstream closure). -/
def closeEvents (s : GenSt) : GenSt := { s with eventClosed := true }

/-- Result of a generator call: the value, a suspension that never resumes
(awaiting a new-job event that is not coming), or a panic. -/
inductive GenResult (α : Type) where
  | ok : α → GenResult α
  | blocked : GenResult α
  | panicked : String → GenResult α
deriving DecidableEq

/-- Model of `WorkGenerator::get_job`: await the new-job event when there is no
current job, read the channel top (`expect "job queue is empty"` — a panic on
an empty slot), and detect a new job by `Arc::ptr_eq`. -/
def getJob (s : GenSt) : GenResult (GenSt × Job × Bool) :=
  match s.current with
  | none =>
      if s.eventPending || s.eventClosed then
        let s1 := { s with eventPending := false }
        match s1.channel with
        | none => .panicked "job queue is empty"
        | some top => .ok ({ s1 with current := some top }, top, true)
      else .blocked
  | some cur =>
      match s.channel with
      | none => .panicked "job queue is empty"
      | some top =>
          if cur.jobId = top.jobId then .ok (s, cur, false)
          else .ok ({ s with current := some top }, top, true)

/-- Model of `WorkGenerator::next_versions`. Cast `midstates as u16` is `midstates % 65536`;
`u16::checked_add` succeeds iff the sum is at most 65535; on overflow
`finish_current_job` clears both the channel slot and the current job and the
loop `version_start..next_version` is empty. -/
def nextVersions (s : GenSt) (job : Job) (new_job : Bool) : GenSt × List Nat :=
  let m16 := s.midstates % 65536
  if new_job then
    let s1 := { s with next_version := m16,
                       base_version := job.version &&& NOT_MASK }
    (s1, (List.range' 0 m16).map (fun c => s1.base_version ||| (c <<< SHIFT)))
  else
    if s.next_version + m16 ≤ 65535 then
      let s1 := { s with next_version := s.next_version + m16 }
      (s1, (List.range' s.next_version m16).map
        (fun c => s1.base_version ||| (c <<< SHIFT)))
    else
      ({ s with channel := none, current := none, next_version := 0 }, [])

/-- Model of `WorkGenerator::generate`: get the job, roll versions, and build the
midstates by feeding one shared SHA-256 engine the 64-byte buffer
`version (LE) ‖ previous_hash ‖ merkle_root[0..28]` per version. -/
def generateStep (s : GenSt) : GenResult (GenSt × MiningWork) :=
  match getJob s with
  | .blocked => .blocked
  | .panicked m => .panicked m
  | .ok (s1, job, new_job) =>
      let time := job.ntime
      let (s2, versions) := nextVersions s1 job new_job
      .ok (s2, { job := job, midstates := midstatesChained job versions,
                 ntime := time })

/-- Projection: the work emitted by a successful call. -/
def GenResult.workOf : GenResult (GenSt × MiningWork) → Option MiningWork
  | .ok (_, w) => some w
  | _ => none

/-- Projection: the generator state after a successful call. -/
def GenResult.stateOf : GenResult (GenSt × MiningWork) → Option GenSt
  | .ok (s, _) => some s
  | _ => none

def GenResult.isBlocked {α : Type} : GenResult α → Bool
  | .blocked => true
  | _ => false

def GenResult.isOk {α : Type} : GenResult α → Bool
  | .ok _ => true
  | _ => false

/-- The versions carried by a work's midstates. -/
def versionsOf (w : MiningWork) : List Nat := w.midstates.map (·.version)

/-- The block of rolled versions for counters `[start, start+m)`:
`base | (c << 13)`. -/
def versionBlock (base start m : Nat) : List Nat :=
  (List.range' start m).map (fun c => base ||| (c <<< SHIFT))

/-- Run of `n` consecutive `generate()` calls with no interleaved environment
action; stops early when a call blocks or panics. Returns the final state and
the emitted works in order. -/
def genRun (s : GenSt) : Nat → GenSt × List MiningWork
  | 0 => (s, [])
  | n + 1 =>
      match generateStep s with
      | .ok (s', w) =>
          let r := genRun s' n
          (r.1, w :: r.2)
      | _ => (s, [])

/-! ## Block Erupter backend adapter (`device.rs`)

The solver's `work::Assignment`, `work::Solution` and `work::UniqueSolution`
come from the `bosminer::work` crate; the adapter only clones assignments and
fills the `Solution` fields itself (`create_unique_solution`), so an
assignment is modelled as an identity-carrying token and `UniqueSolution::new`
as the pairing constructor the specification describes. -/

/-- Model of `work::Assignment` as seen by the solver: an opaque handle compared by
identity. -/
structure Assignment where
  aid : Nat
deriving DecidableEq

/-- Model of `work::Solution` with the fields filled by
`BlockErupterSolver::create_unique_solution`. -/
structure WorkSolution where
  nonce : Nat
  ntime : Option Nat
  midstate_idx : Nat
  solution_idx : Nat
  solution_id : Nat
deriving DecidableEq

/-- Model of `work::UniqueSolution`: an assignment paired with a solution and a
receipt timestamp. -/
structure UniqueSolution where
  work : Assignment
  solution : WorkSolution
  timestamp : Option Nat
deriving DecidableEq

/-- Model of `BlockErupterSolver::create_unique_solution`. -/
def createUniqueSolution (work : Assignment) (nonce timestamp solution_id : Nat) :
    UniqueSolution :=
  { work := work,
    solution := { nonce := nonce, ntime := none, midstate_idx := 0,
                  solution_idx := 0, solution_id := solution_id },
    timestamp := some timestamp }

/-- Constant `WAIT_TIMEOUT_MS: u64 = 100`. -/
def WAIT_TIMEOUT_MS : Nat := 100

/-- The timeout handed to `BlockErupter::wait_for_nonce` by
`BlockErupterSolver::wait_for_nonce` (durations in milliseconds):
`MAX_READ_TIME.checked_sub(duration).unwrap_or(WAIT_TIMEOUT)`.
`Duration::checked_sub` returns `Some` exactly when the elapsed time does not
exceed `maxRead`. The numeric value of `MAX_READ_TIME` comes from the missing
`icarus` module, so it is kept as the `maxRead` parameter. -/
def timeoutRem (maxRead elapsed : Nat) : Nat :=
  if elapsed ≤ maxRead then maxRead - elapsed else WAIT_TIMEOUT_MS

/-- Outcome of one `device.read_bulk(READ_ADDR, ..)` call: `n` bytes read
into the 4-byte buffer, a timeout, or another USB error. -/
inductive ReadRes where
  | okBytes : List Nat → ReadRes
  | timeoutE : ReadRes
  | otherE : ReadRes
deriving DecidableEq

/-- Result of `BlockErupter::wait_for_nonce`: `Ok(Option<u32>)`, an error
return, or a panic. (The panic constructor exists so claims about panics can
be stated; the function itself only ever errors.) -/
inductive DevOut where
  | ok : Option Nat → DevOut
  | err : String → DevOut
  | panic : String → DevOut
deriving DecidableEq

def DevOut.isPanic : DevOut → Bool
  | .panic _ => true
  | _ => false

/-- Conversion `u32::from_le_bytes` of the 4-byte nonce buffer. -/
def fromLE4 (bs : List Nat) : Nat :=
  bs.getD 0 0 + 256 * bs.getD 1 0 + 65536 * bs.getD 2 0 + 16777216 * bs.getD 3 0

/-- Model of `BlockErupter::wait_for_nonce`: a full 4-byte read yields `Ok(Some n)`, a
short read is an error return (`ErrorKind::Usb("read incorrect number of
bytes")` via `?`), `libusb::Error::Timeout` yields `Ok(None)`, any other USB
error is an error return. -/
def devWaitForNonce (r : ReadRes) : DevOut :=
  match r with
  | .okBytes bs =>
      if bs.length ≠ 4 then .err "read incorrect number of bytes"
      else .ok (some (fromLE4 bs))
  | .timeoutE => .ok none
  | .otherE => .err "cannot read nonce"

/-- What `BlockErupterSolver::wait_for_nonce` reports back to the iterator
loop for one device read: a nonce with its receipt time, a plain timeout, or
a failure captured into `stop_reason` (also reported as "no nonce"). -/
inductive WaitRes where
  | nonce : Nat → Nat → WaitRes
  | timeout : WaitRes
  | fail : WaitRes
deriving DecidableEq

/-- Classification of a device read outcome by
`BlockErupterSolver::wait_for_nonce` (timestamp `t` models the
`SystemTime::now()` taken on success). -/
def classifyRead (r : ReadRes) (t : Nat) : WaitRes :=
  match devWaitForNonce r with
  | .ok (some n) => .nonce n t
  | .ok none => .timeout
  | _ => .fail

/-- Outcome of the work-generator call inside the solver loop. -/
inductive GenRes where
  | work : Assignment → Bool → GenRes
  | closed : GenRes
deriving DecidableEq

/-- The mutable fields of `BlockErupterSolver` used by `next()`; `stop_ok`
models `stop_reason.is_ok()`. -/
structure SolverState where
  curr_work : Option Assignment
  next_solution : Option UniqueSolution
  solution_id : Nat
  stop_ok : Bool
deriving DecidableEq

/-- Result of one `next()` call: an emitted solution with the post-state,
termination (`None` returned) with the post-state, the "too much solutions"
panic, or exhaustion of the supplied event trace. -/
inductive NextRes where
  | out : UniqueSolution → SolverState → NextRes
  | done : SolverState → NextRes
  | panicked : NextRes
  | fuel : NextRes
deriving DecidableEq

/-- The `while stop_reason.is_ok()` loop of `BlockErupterSolver::next`.
`prev` is the local `prev_work` variable; `waits` scripts the outcomes of
`wait_for_nonce` calls, `gens` the outcomes of `work_generator.generate()`
calls (with the success flag of the subsequent `send_work`). -/
def nextLoop (s : SolverState) (prev : Option (Assignment × Nat))
    (waits : List WaitRes) (gens : List GenRes) : NextRes :=
  if s.stop_ok then
    match s.curr_work, waits with
    | some _, [] => .fuel
    | some work, .nonce n t :: _ =>
        let sol := createUniqueSolution work n t s.solution_id
        if s.solution_id = 4294967295 then .panicked
        else
          let s1 := { s with solution_id := s.solution_id + 1 }
          match prev with
          | none => .out sol s1
          | some (pw, pid) =>
              .out (createUniqueSolution pw n t pid)
                   { s1 with next_solution := some sol }
    | some _, .fail :: _ => .done { s with stop_ok := false }
    | some work, .timeout :: waits' =>
        (match gens with
         | [] => .fuel
         | .closed :: _ => .done { s with curr_work := none }
         | .work a ok :: gens' =>
             nextLoop { s with curr_work := some a, solution_id := 0,
                               stop_ok := s.stop_ok && ok }
               (some (work, s.solution_id)) waits' gens')
    | none, _ =>
        (match gens with
         | [] => .fuel
         | .closed :: _ => .done s
         | .work a ok :: gens' =>
             nextLoop { s with curr_work := some a, solution_id := 0,
                               stop_ok := s.stop_ok && ok }
               none waits gens')
  else .done s

/-- Model of `BlockErupterSolver::next`: return the stashed `next_solution` first if
present, otherwise run the loop with `prev_work = None`. -/
def solverNext (s : SolverState) (waits : List WaitRes) (gens : List GenRes) :
    NextRes :=
  match s.next_solution with
  | some sol => .out sol { s with next_solution := none }
  | none => nextLoop s none waits gens

/-! ## Concrete fixtures and run helpers -/

/-- Fixture job with `version = 0x20000000` (spec scenario "Single-job
drain"). -/
def j0 : Job :=
  { jobId := 0, version := 0x20000000,
    previous_hash := List.replicate 32 0, merkle_root := List.replicate 32 0,
    ntime := 1000, bits := 0x1d00ffff }

/-- A second job in a distinct allocation. -/
def j1 : Job :=
  { jobId := 1, version := 0,
    previous_hash := List.replicate 32 1, merkle_root := List.replicate 32 2,
    ntime := 2000, bits := 0x1d00ffff }

/-- A fresh generator configured with `midstates = 4` (the backend-configured
midstate count of the spec; the `WorkGenerator::new` of this snapshot pins
the field to 1, the claims treat it as the configuration knob). -/
def sM4 : GenSt := { initSt with midstates := 4 }

/-- Generator state on a single job right before exhaustion with `M = 1`:
after 65535 successful calls `next_version` has reached 65535. -/
def sExh : GenSt :=
  { current := some j0, midstates := 1, next_version := 65535,
    base_version := 0x20000000, channel := some j0,
    eventPending := false, eventClosed := false }

/-- Generator state on a single job at counter 65532 with `M = 4`. -/
def sExh4 : GenSt :=
  { current := some j0, midstates := 4, next_version := 65532,
    base_version := 0x20000000, channel := some j0,
    eventPending := false, eventClosed := false }

/-- The engine state after feeding the blocks of `vs` in order, starting
from `st` (the fold the re-used engine performs). -/
def chainStateFrom (job : Job) (st : List Nat) (vs : List Nat) : List Nat :=
  vs.foldl (fun a v => sha256Compress a (mkBlockBytes job v)) st

def chainState (job : Job) (vs : List Nat) : List Nat :=
  chainStateFrom job shaInit vs

/-- The work emitted by one adoption call on `j0` with `midstates = 2`. -/
def c4work : MiningWork :=
  ((generateStep (publish j0 { initSt with midstates := 2 })).workOf).getD
    { job := j0, midstates := [], ntime := 0 }

/-- The state of the second midstate of `c4work`. -/
def c4state1 : List Nat := (c4work.midstates.getD 1 ⟨0, []⟩).state

/-- Trace for the version-reuse counterexample: publish `j0`, generate,
publish `j1`, generate, publish the same `j0` allocation again, generate. -/
def c8run : List MiningWork :=
  match generateStep (publish j0 sM4) with
  | .ok (s1, w1) =>
      match generateStep (publish j1 s1) with
      | .ok (s2, w2) =>
          match generateStep (publish j0 s2) with
          | .ok (_, w3) => [w1, w2, w3]
          | _ => []
      | _ => []
  | _ => []

/-- The invariant of every solution built by
`BlockErupterSolver::create_unique_solution`: midstate index 0, solution
index 0, no ntime override. -/
def goodSol (u : UniqueSolution) : Prop :=
  u.solution.midstate_idx = 0 ∧ u.solution.solution_idx = 0 ∧
  u.solution.ntime = none

/-! ## Helper lemmas -/

/-- The versions recorded in the chained midstates are exactly the rolled
versions fed to the loop. -/
theorem map_version_midstatesChainedFrom (job : Job) :
    ∀ (st : List Nat) (vs : List Nat),
      (midstatesChainedFrom job st vs).map (·.version) = vs := by
  intro st vs
  induction vs generalizing st with
  | nil => rfl
  | cons v rest ih => simp [midstatesChainedFrom, ih]

theorem map_version_midstatesChained (job : Job) (vs : List Nat) :
    (midstatesChained job vs).map (·.version) = vs :=
  map_version_midstatesChainedFrom job shaInit vs

theorem versionsOf_mk (job : Job) (vs : List Nat) (t : Nat) :
    versionsOf { job := job, midstates := midstatesChained job vs, ntime := t }
      = vs := by
  simp [versionsOf, map_version_midstatesChained]

/-- Membership in a rolled-version block. -/
theorem mem_versionBlock {v base start m : Nat} :
    v ∈ versionBlock base start m ↔
      ∃ c, start ≤ c ∧ c < start + m ∧ v = base ||| (c <<< SHIFT) := by
  simp only [versionBlock, List.mem_map, List.mem_range'_1]
  constructor
  · rintro ⟨c, ⟨h1, h2⟩, rfl⟩; exact ⟨c, h1, h2, rfl⟩
  · rintro ⟨c, h1, h2, rfl⟩; exact ⟨c, ⟨h1, h2⟩, rfl⟩

/-- Bits 13..28 of `V & !MASK` are clear. -/
theorem base_masked_bits (V : Nat) :
    ∀ i, i < 16 → (V &&& NOT_MASK).testBit (13 + i) = false := by
  intro i hi
  have hnm : ∀ j, j < 16 → NOT_MASK.testBit (13 + j) = false := by decide
  simp [Nat.testBit_and, hnm i hi]

/-- Rolling is injective in the 16-bit counter, provided the base has the
mask bits clear. -/
theorem rolledVersion_inj {base c c' : Nat}
    (hb : ∀ i, i < 16 → base.testBit (13 + i) = false)
    (hc : c < 65536) (hc' : c' < 65536)
    (h : base ||| (c <<< SHIFT) = base ||| (c' <<< SHIFT)) : c = c' := by
  apply Nat.eq_of_testBit_eq
  intro i
  by_cases hi : i < 16
  · have h13 : (13 : Nat) ≤ 13 + i := by omega
    have := congrArg (fun x => x.testBit (13 + i)) h
    simp only [Nat.testBit_or, Nat.testBit_shiftLeft, SHIFT, hb i hi] at this
    simpa [h13, Nat.add_sub_cancel_left] using this
  · have h16 : (65536 : Nat) = 2 ^ 16 := by norm_num
    have hle : (2 : Nat) ^ 16 ≤ 2 ^ i := Nat.pow_le_pow_right (by norm_num) (by omega)
    rw [Nat.testBit_lt_two_pow (by omega), Nat.testBit_lt_two_pow (by omega)]

/-- Characterization of an adoption call: a pending new job is taken from the
slot, counters reset, and the first block `[0, M)` is rolled on the job's
masked base. -/
theorem generateStep_adopt (s : GenSt) (J : Job)
    (h1 : s.current = none) (h2 : s.channel = some J)
    (h3 : s.eventPending = true) (hm : s.midstates ≤ 65535) :
    generateStep s = .ok
      ({ s with eventPending := false, current := some J,
                next_version := s.midstates,
                base_version := J.version &&& NOT_MASK },
       { job := J,
         midstates := midstatesChained J
           (versionBlock (J.version &&& NOT_MASK) 0 s.midstates),
         ntime := J.ntime }) := by
  have hmod : s.midstates % 65536 = s.midstates := Nat.mod_eq_of_lt (by omega)
  simp [generateStep, getJob, nextVersions, versionBlock, h1, h2, h3, hmod]

/-- Characterization of a continuation call without overflow: the next block
`[next_version, next_version + M)` is rolled and the counter advances. -/
theorem generateStep_cont_roll (s : GenSt) (J : Job)
    (h1 : s.current = some J) (h2 : s.channel = some J)
    (hm : s.midstates ≤ 65535)
    (hle : s.next_version + s.midstates ≤ 65535) :
    generateStep s = .ok
      ({ s with next_version := s.next_version + s.midstates },
       { job := J,
         midstates := midstatesChained J
           (versionBlock s.base_version s.next_version s.midstates),
         ntime := J.ntime }) := by
  have hmod : s.midstates % 65536 = s.midstates := Nat.mod_eq_of_lt (by omega)
  simp [generateStep, getJob, nextVersions, versionBlock, h1, h2, hmod, hle]

/-- Characterization of the exhausting call: `checked_add` fails, the job
channel slot and the current job are cleared (`finish_current_job`), the
counter resets, and the emitted work has an empty midstate list. -/
theorem generateStep_cont_overflow (s : GenSt) (J : Job)
    (h1 : s.current = some J) (h2 : s.channel = some J)
    (hm : s.midstates ≤ 65535)
    (hgt : ¬ s.next_version + s.midstates ≤ 65535) :
    generateStep s = .ok
      ({ s with channel := none, current := none, next_version := 0 },
       { job := J, midstates := [], ntime := J.ntime }) := by
  have hmod : s.midstates % 65536 = s.midstates := Nat.mod_eq_of_lt (by omega)
  simp [generateStep, getJob, nextVersions, midstatesChained,
        midstatesChainedFrom, h1, h2, hmod, hgt]

/-- With no current job, an empty event queue and a live event stream, a call
suspends awaiting the new-job event. -/
theorem generateStep_blocked (s : GenSt)
    (h1 : s.current = none) (h2 : s.eventPending = false)
    (h3 : s.eventClosed = false) :
    generateStep s = .blocked := by
  simp [generateStep, getJob, h1, h2, h3]

/-- A run from a blocked state emits nothing. -/
theorem genRun_blocked (s : GenSt) (n : Nat)
    (h : generateStep s = .blocked) : genRun s n = (s, []) := by
  cases n with
  | zero => rfl
  | succ n => simp [genRun, h]

/-- Worker lemma: along a run of continuation calls on one adopted job, every
work references that job, every rolled version comes from a counter at or
above the state's `next_version`, and version sets are pairwise disjoint. -/
theorem genRun_cont_disjoint (n : Nat) :
    ∀ (s : GenSt) (J : Job),
      s.current = some J → s.channel = some J →
      s.eventPending = false → s.eventClosed = false →
      s.midstates ≤ 65535 →
      (∀ i, i < 16 → s.base_version.testBit (13 + i) = false) →
      (∀ w ∈ (genRun s n).2, w.job = J) ∧
      (∀ w ∈ (genRun s n).2, ∀ v ∈ versionsOf w,
          ∃ c, s.next_version ≤ c ∧ c < 65536 ∧
            v = s.base_version ||| (c <<< SHIFT)) ∧
      List.Pairwise (fun w1 w2 => ∀ v ∈ versionsOf w1, v ∉ versionsOf w2)
        (genRun s n).2 := by
  induction n with
  | zero => intro s J _ _ _ _ _ _; simp [genRun]
  | succ n ih =>
    intro s J h1 h2 hp hc hm hb
    by_cases hle : s.next_version + s.midstates ≤ 65535
    · have hstep := generateStep_cont_roll s J h1 h2 hm hle
      have hrun : (genRun s (n + 1)).2 =
          { job := J,
            midstates := midstatesChained J
              (versionBlock s.base_version s.next_version s.midstates),
            ntime := J.ntime } ::
          (genRun { s with next_version := s.next_version + s.midstates } n).2 := by
        simp [genRun, hstep]
      obtain ⟨ihJ, ihB, ihP⟩ :=
        ih { s with next_version := s.next_version + s.midstates } J
          h1 h2 hp hc hm hb
      have hw0 : versionsOf
          { job := J,
            midstates := midstatesChained J
              (versionBlock s.base_version s.next_version s.midstates),
            ntime := J.ntime } =
          versionBlock s.base_version s.next_version s.midstates :=
        versionsOf_mk _ _ _
      refine ⟨?_, ?_, ?_⟩
      · rw [hrun]
        intro w hw
        rcases List.mem_cons.mp hw with h | h
        · rw [h]
        · exact ihJ w h
      · rw [hrun]
        intro w hw v hv
        rcases List.mem_cons.mp hw with h | h
        · rw [h, hw0] at hv
          obtain ⟨c, hc1, hc2, hc3⟩ := mem_versionBlock.mp hv
          exact ⟨c, hc1, by omega, hc3⟩
        · obtain ⟨c, hc1, hc2, hc3⟩ := ihB w h v hv
          exact ⟨c, by simp at hc1; omega, hc2, hc3⟩
      · rw [hrun]
        refine List.pairwise_cons.mpr ⟨?_, ihP⟩
        intro w2 hw2 v hv hv2
        rw [hw0] at hv
        obtain ⟨c, hc1, hc2, hc3⟩ := mem_versionBlock.mp hv
        obtain ⟨c', hc'1, hc'2, hc'3⟩ := ihB w2 hw2 v hv2
        have hc'1' : s.next_version + s.midstates ≤ c' := hc'1
        have hcc : c = c' := by
          apply rolledVersion_inj hb (by omega) hc'2
          rw [← hc3, ← hc'3]
        omega
    · have hstep := generateStep_cont_overflow s J h1 h2 hm hle
      have hdead : generateStep
          { s with channel := none, current := none, next_version := 0 } =
          .blocked :=
        generateStep_blocked _ rfl hp hc
      have hrun : (genRun s (n + 1)).2 =
          [{ job := J, midstates := [], ntime := J.ntime }] := by
        simp [genRun, hstep, genRun_blocked _ n hdead]
      rw [hrun]
      refine ⟨?_, ?_, ?_⟩
      · intro w hw; simp at hw; rw [hw]
      · intro w hw v hv
        simp at hw
        rw [hw] at hv
        simp [versionsOf] at hv
      · simp

/-! ## Claims -/

/-- C7 (amended): the timeout handed to the device is
`MAX_READ_TIME - elapsed` whenever the elapsed time does not exceed
`MAX_READ_TIME`, and the fixed `WAIT_TIMEOUT` (100 ms) only when the elapsed
time already exceeds `MAX_READ_TIME`. It is a fallback, not a lower clamp:
the remaining time is passed through even when it is below 100 ms. -/
theorem C7_timeout_fallback :
    (∀ maxRead d, d ≤ maxRead → timeoutRem maxRead d = maxRead - d) ∧
    (∀ maxRead d, maxRead < d → timeoutRem maxRead d = WAIT_TIMEOUT_MS) ∧
    timeoutRem 12630 12629 = 1 := by
  refine ⟨fun m d h => ?_, fun m d h => ?_, by decide⟩
  · simp [timeoutRem, h]
  · simp [timeoutRem, Nat.not_le.mpr h]

/-- C7 witness: the theorem applied at a concrete elapsed time. -/
theorem C7_timeout_fallback_witness :
    timeoutRem 12630 30 = 12600 :=
  C7_timeout_fallback.1 12630 30 (by decide)

/-- C7 counterexample: the claim says the timeout equals
`max (MAX_READ_TIME - d) WAIT_TIMEOUT` for every elapsed `d` and hence is
never below 100 ms; one millisecond before `MAX_READ_TIME` elapses, the code
hands the device a 1 ms timeout instead of 100 ms (this holds for any value
of the `MAX_READ_TIME` constant above 100 ms; 12630 ms stands in for the
Block Erupter's). -/
theorem C7_counterexample :
    timeoutRem 12630 12629 ≠ max (12630 - 12629) WAIT_TIMEOUT_MS := by
  decide

/-- C9 (amended): a short bulk read in `BlockErupter::wait_for_nonce` is a
fatal `Usb` error return — not a panic — which the solver captures into
`stop_reason`, terminating the iterator; only a USB timeout yields the
non-fatal `Ok(None)`. -/
theorem C9_short_read_fatal_error :
    (∀ bs : List Nat, bs.length ≠ 4 →
        devWaitForNonce (.okBytes bs) = .err "read incorrect number of bytes" ∧
        (devWaitForNonce (.okBytes bs)).isPanic = false) ∧
    devWaitForNonce .timeoutE = .ok none ∧
    (∀ (s : SolverState) (prev : Option (Assignment × Nat))
        (waits : List WaitRes) (gens : List GenRes) (w : Assignment),
        s.stop_ok = true → s.curr_work = some w →
        nextLoop s prev (.fail :: waits) gens =
          .done { s with stop_ok := false }) := by
  refine ⟨fun bs h => ?_, rfl, fun s prev waits gens w h1 h2 => ?_⟩
  · simp [devWaitForNonce, h, DevOut.isPanic]
  · simp [nextLoop, h1, h2]

/-- C9 witness: the theorem applied to a concrete 2-byte read and a concrete
solver state. -/
theorem C9_short_read_fatal_error_witness :
    devWaitForNonce (.okBytes [1, 2]) = .err "read incorrect number of bytes" ∧
    nextLoop ⟨some ⟨7⟩, none, 0, true⟩ none [.fail] [] =
      .done ⟨some ⟨7⟩, none, 0, false⟩ :=
  ⟨(C9_short_read_fatal_error.1 [1, 2] (by decide)).1,
   C9_short_read_fatal_error.2.2 ⟨some ⟨7⟩, none, 0, true⟩ none [] [] ⟨7⟩ rfl rfl⟩

/-- C9 counterexample: the claim says a short read panics the owning task;
on a 2-byte read the code returns a `Usb` error value instead (no panic). -/
theorem C9_counterexample :
    devWaitForNonce (.okBytes [1, 2]) = .err "read incorrect number of bytes" ∧
    (devWaitForNonce (.okBytes [1, 2])).isPanic = false := by
  exact ⟨rfl, rfl⟩

/-- C5: when a nonce arrives while `prev_work` is set (work was just
switched), the loop emits the `prev`-based `UniqueSolution` carrying the
previous assignment's `solution_id` and stashes the `curr_work`-based one in
`next_solution`; the spec scenario (timeout on `a₀`, switch to `a₁`, then a
nonce) is played out, and a stashed solution is returned by the following
`next()` before any other processing. -/
theorem C5_solution_correlation :
    (∀ (s : SolverState) (pw w : Assignment) (pid n t : Nat)
        (waits : List WaitRes) (gens : List GenRes),
        s.stop_ok = true → s.curr_work = some w →
        s.solution_id ≠ 4294967295 →
        nextLoop s (some (pw, pid)) (.nonce n t :: waits) gens =
          .out (createUniqueSolution pw n t pid)
               { s with solution_id := s.solution_id + 1,
                        next_solution :=
                          some (createUniqueSolution w n t s.solution_id) }) ∧
    (∀ (a0 a1 : Assignment) (sid n t : Nat),
        solverNext { curr_work := some a0, next_solution := none,
                     solution_id := sid, stop_ok := true }
            [.timeout, .nonce n t] [.work a1 true] =
          .out (createUniqueSolution a0 n t sid)
               { curr_work := some a1,
                 next_solution := some (createUniqueSolution a1 n t 0),
                 solution_id := 1, stop_ok := true }) ∧
    (∀ (s : SolverState) (u : UniqueSolution) (waits : List WaitRes)
        (gens : List GenRes),
        s.next_solution = some u →
        solverNext s waits gens = .out u { s with next_solution := none }) := by
  refine ⟨fun s pw w pid n t waits gens h1 h2 h3 => ?_,
          fun a0 a1 sid n t => rfl,
          fun s u waits gens h => ?_⟩
  · simp [nextLoop, h1, h2, h3]
  · simp [solverNext, h]

/-- C5 witness: the correlation rule applied at a concrete state. -/
theorem C5_solution_correlation_witness :
    nextLoop ⟨some ⟨1⟩, none, 3, true⟩ (some (⟨0⟩, 2)) [.nonce 42 9] [] =
      .out (createUniqueSolution ⟨0⟩ 42 9 2)
           ⟨some ⟨1⟩, some (createUniqueSolution ⟨1⟩ 42 9 3), 4, true⟩ :=
  C5_solution_correlation.1 ⟨some ⟨1⟩, none, 3, true⟩ ⟨0⟩ ⟨1⟩ 2 42 9 [] []
    rfl rfl (by decide)

/-- Loop equation: a nonce with no pending `prev_work` is emitted directly. -/
theorem nextLoop_nonce_none (s : SolverState) (w : Assignment)
    (n t : Nat) (waits : List WaitRes) (gens : List GenRes)
    (hok : s.stop_ok = true) (hcw : s.curr_work = some w)
    (hid : s.solution_id ≠ 4294967295) :
    nextLoop s none (.nonce n t :: waits) gens =
      .out (createUniqueSolution w n t s.solution_id)
           { s with solution_id := s.solution_id + 1 } := by
  simp [nextLoop, hok, hcw, hid]

/-- Loop equation: a nonce with `prev_work` pending emits the prev-based
solution and stashes the current one. -/
theorem nextLoop_nonce_prev (s : SolverState) (w pw : Assignment) (pid : Nat)
    (n t : Nat) (waits : List WaitRes) (gens : List GenRes)
    (hok : s.stop_ok = true) (hcw : s.curr_work = some w)
    (hid : s.solution_id ≠ 4294967295) :
    nextLoop s (some (pw, pid)) (.nonce n t :: waits) gens =
      .out (createUniqueSolution pw n t pid)
           { s with solution_id := s.solution_id + 1,
                    next_solution :=
                      some (createUniqueSolution w n t s.solution_id) } := by
  simp [nextLoop, hok, hcw, hid]

/-- Loop equation: a timeout with more work available switches work and
loops, recording the old assignment in `prev_work`. -/
theorem nextLoop_timeout_work (s : SolverState) (w a : Assignment) (ok : Bool)
    (prev : Option (Assignment × Nat)) (waits : List WaitRes)
    (gens : List GenRes) (hok : s.stop_ok = true) (hcw : s.curr_work = some w) :
    nextLoop s prev (.timeout :: waits) (.work a ok :: gens) =
      nextLoop { s with curr_work := some a, solution_id := 0,
                        stop_ok := s.stop_ok && ok }
        (some (w, s.solution_id)) waits gens := by
  simp [nextLoop, hok, hcw]

/-- Loop equation: a timeout with the generator stream closed terminates. -/
theorem nextLoop_timeout_closed (s : SolverState) (w : Assignment)
    (prev : Option (Assignment × Nat)) (waits : List WaitRes)
    (gens : List GenRes) (hok : s.stop_ok = true) (hcw : s.curr_work = some w) :
    nextLoop s prev (.timeout :: waits) (.closed :: gens) =
      .done { s with curr_work := none } := by
  simp [nextLoop, hok, hcw]

/-- Loop equation: with no current work, fresh work is fetched and sent. -/
theorem nextLoop_none_work (s : SolverState) (a : Assignment) (ok : Bool)
    (prev : Option (Assignment × Nat)) (waits : List WaitRes)
    (gens : List GenRes) (hok : s.stop_ok = true) (hcw : s.curr_work = none) :
    nextLoop s prev waits (.work a ok :: gens) =
      nextLoop { s with curr_work := some a, solution_id := 0,
                        stop_ok := s.stop_ok && ok }
        none waits gens := by
  simp [nextLoop, hok, hcw]

/-- Loop equation: with no current work and a closed generator stream the
iterator terminates. -/
theorem nextLoop_none_closed (s : SolverState)
    (prev : Option (Assignment × Nat)) (waits : List WaitRes)
    (gens : List GenRes) (hok : s.stop_ok = true) (hcw : s.curr_work = none) :
    nextLoop s prev waits (.closed :: gens) = .done s := by
  simp [nextLoop, hok, hcw]

/-- Loop equation: a captured error ends the iteration at once. -/
theorem nextLoop_stop (s : SolverState) (prev : Option (Assignment × Nat))
    (waits : List WaitRes) (gens : List GenRes) (hok : s.stop_ok = false) :
    nextLoop s prev waits gens = .done s := by
  rw [nextLoop.eq_def]
  simp [hok]

/-- Every solution built by `create_unique_solution` has midstate index 0,
solution index 0 and no ntime override. -/
theorem goodSol_create (w : Assignment) (n t i : Nat) :
    goodSol (createUniqueSolution w n t i) := ⟨rfl, rfl, rfl⟩

/-- Worker lemma for C10: if the stash holds only `create_unique_solution`
values at entry, then any solution the loop emits satisfies `goodSol` and the
stash keeps the property. -/
theorem nextLoop_out_good :
    ∀ (gens : List GenRes) (s : SolverState) (prev : Option (Assignment × Nat))
      (waits : List WaitRes),
      (∀ v, s.next_solution = some v → goodSol v) →
      (match nextLoop s prev waits gens with
       | .out u s' => goodSol u ∧ (∀ v, s'.next_solution = some v → goodSol v)
       | _ => True) := by
  have nonceCase : ∀ (s : SolverState) (w : Assignment) (n t : Nat)
      (prev : Option (Assignment × Nat)) (waits : List WaitRes)
      (gens : List GenRes),
      s.stop_ok = true → s.curr_work = some w →
      (∀ v, s.next_solution = some v → goodSol v) →
      (match nextLoop s prev (.nonce n t :: waits) gens with
       | .out u s' => goodSol u ∧ (∀ v, s'.next_solution = some v → goodSol v)
       | _ => True) := by
    intro s w n t prev waits gens hok hcw hg
    by_cases hid : s.solution_id = 4294967295
    · simp [nextLoop, hok, hcw, hid]
    · cases prev with
      | none =>
        rw [nextLoop_nonce_none s w n t waits gens hok hcw hid]
        exact ⟨goodSol_create w n t s.solution_id, fun v hv => hg v hv⟩
      | some pwp =>
        rw [nextLoop_nonce_prev s w pwp.1 pwp.2 n t waits gens hok hcw hid]
        refine ⟨goodSol_create pwp.1 n t pwp.2, fun v hv => ?_⟩
        have hv' : some (createUniqueSolution w n t s.solution_id) = some v := hv
        rw [Option.some_inj] at hv'
        rw [← hv']
        exact goodSol_create w n t s.solution_id
  intro gens
  induction gens with
  | nil =>
    intro s prev waits hg
    by_cases hok : s.stop_ok = true
    · cases hcw : s.curr_work with
      | none => simp [nextLoop, hok, hcw]
      | some w =>
        cases waits with
        | nil => simp [nextLoop, hok, hcw]
        | cons wr waits' =>
          cases wr with
          | nonce n t => exact nonceCase s w n t prev waits' [] hok hcw hg
          | timeout => simp [nextLoop, hok, hcw]
          | fail => simp [nextLoop, hok, hcw]
    · have hok' : s.stop_ok = false := by revert hok; cases s.stop_ok <;> simp
      simp [nextLoop_stop _ prev _ _ hok']
  | cons g gens' ih =>
    intro s prev waits hg
    by_cases hok : s.stop_ok = true
    · cases hcw : s.curr_work with
      | none =>
        cases g with
        | closed => simp [nextLoop, hok, hcw]
        | work a ok =>
          rw [nextLoop_none_work s a ok prev waits gens' hok hcw]
          exact ih _ none waits (fun v hv => hg v hv)
      | some w =>
        cases waits with
        | nil => simp [nextLoop, hok, hcw]
        | cons wr waits' =>
          cases wr with
          | nonce n t => exact nonceCase s w n t prev waits' (g :: gens') hok hcw hg
          | timeout =>
            cases g with
            | closed => simp [nextLoop_timeout_closed s w prev waits' gens' hok hcw]
            | work a ok =>
              rw [nextLoop_timeout_work s w a ok prev waits' gens' hok hcw]
              exact ih _ (some (w, s.solution_id)) waits' (fun v hv => hg v hv)
          | fail => simp [nextLoop, hok, hcw]
    · have hok' : s.stop_ok = false := by revert hok; cases s.stop_ok <;> simp
      simp [nextLoop_stop _ prev _ _ hok']

/-- C10: every `UniqueSolution` the Block Erupter solver emits from `next()`
— directly or via the one-deep `next_solution` stash — carries
`midstate_idx = 0`, `solution_idx = 0` and no `ntime` override, whatever
midstate actually produced the nonce; the stash property is preserved across
calls. -/
theorem C10_solution_fields :
    ∀ (s : SolverState) (waits : List WaitRes) (gens : List GenRes)
      (u : UniqueSolution) (s' : SolverState),
      (∀ v, s.next_solution = some v → goodSol v) →
      solverNext s waits gens = .out u s' →
      goodSol u ∧ (∀ v, s'.next_solution = some v → goodSol v) := by
  intro s waits gens u s' hg h
  cases hns : s.next_solution with
  | some v =>
    simp only [solverNext, hns] at h
    rw [NextRes.out.injEq] at h
    obtain ⟨hu, hs⟩ := h
    refine ⟨hu ▸ hg v hns, fun v' hv' => ?_⟩
    rw [← hs] at hv'
    simp at hv'
  | none =>
    simp only [solverNext, hns] at h
    have := nextLoop_out_good gens s none waits hg
    rw [h] at this
    exact this

/-- C10 witness: the theorem applied at a concrete state in which a nonce is
returned for the current assignment. -/
theorem C10_solution_fields_witness :
    goodSol (createUniqueSolution ⟨3⟩ 11 22 5) ∧
    (∀ v, (⟨some ⟨3⟩, none, 6, true⟩ : SolverState).next_solution = some v →
      goodSol v) :=
  C10_solution_fields ⟨some ⟨3⟩, none, 5, true⟩ [.nonce 11 22] []
    (createUniqueSolution ⟨3⟩ 11 22 5) ⟨some ⟨3⟩, none, 6, true⟩
    (fun v hv => by simp at hv) rfl

/-- C6 (code bug): when the upstream drops the new-job event sender,
`generate()` does not return `None`: with an empty job slot the call panics
(`expect("job queue is empty")` in `get_job`), and with a job still in the
slot it keeps returning assignments. The embedded `generate` has no
`None`-returning path at all. -/
theorem C6_closed_stream_panics :
    generateStep (closeEvents initSt) = .panicked "job queue is empty" ∧
    (generateStep (publish j0 (closeEvents initSt))).isOk = true := by
  exact ⟨rfl, rfl⟩

/-- C3 (code bug): the exhausting call emits a work item whose midstate list
is empty instead of one of length `M`: with `M = 1` at `next_version = 65535`
(the state after 65535 successful calls on one job) the emitted assignment
has 0 midstates, and the job slot is cleared. -/
theorem C3_exhaustion_empty_work :
    sExh.midstates = 1 ∧
    (generateStep sExh).workOf.map (fun w => w.midstates.length) = some 0 ∧
    (generateStep sExh).stateOf.map GenSt.channel = some none := by
  refine ⟨rfl, ?_, ?_⟩ <;> rfl

/-- C1: on adoption of a job with version `V` the first assignment rolls
versions `(V & !MASK) | (c << 13)` for counters `c = 0..M-1` and each later
call on the same job rolls the next contiguous block of `M` counters;
concretely, for `V = 0x20000000` and `M = 4` the first two calls produce
`{0x20000000, 0x20002000, 0x20004000, 0x20006000}` and
`{0x20008000, 0x2000A000, 0x2000C000, 0x2000E000}`. -/
theorem C1_version_rolling :
    (∀ (s : GenSt) (J : Job),
        s.current = none → s.channel = some J → s.eventPending = true →
        s.midstates ≤ 65535 →
        (generateStep s).workOf.map versionsOf =
          some (versionBlock (J.version &&& NOT_MASK) 0 s.midstates) ∧
        (generateStep s).stateOf.map
            (fun t => (t.next_version, t.base_version, t.current)) =
          some (s.midstates, J.version &&& NOT_MASK, some J)) ∧
    (∀ (s : GenSt) (J : Job),
        s.current = some J → s.channel = some J →
        s.midstates ≤ 65535 → s.next_version + s.midstates ≤ 65535 →
        (generateStep s).workOf.map versionsOf =
          some (versionBlock s.base_version s.next_version s.midstates) ∧
        (generateStep s).stateOf.map GenSt.next_version =
          some (s.next_version + s.midstates)) ∧
    (genRun (publish j0 sM4) 2).2.map versionsOf =
      [[0x20000000, 0x20002000, 0x20004000, 0x20006000],
       [0x20008000, 0x2000A000, 0x2000C000, 0x2000E000]] := by
  refine ⟨fun s J h1 h2 h3 hm => ?_, fun s J h1 h2 hm hle => ?_, by decide⟩
  · rw [generateStep_adopt s J h1 h2 h3 hm]
    simp [GenResult.workOf, GenResult.stateOf, versionsOf_mk]
  · rw [generateStep_cont_roll s J h1 h2 hm hle]
    simp [GenResult.workOf, GenResult.stateOf, versionsOf_mk]

/-- C1 witness: the adoption part applied to the concrete fixture state. -/
theorem C1_version_rolling_witness :
    (generateStep (publish j0 sM4)).workOf.map versionsOf =
      some (versionBlock 0x20000000 0 4) :=
  (C1_version_rolling.1 (publish j0 sM4) j0 rfl rfl rfl (by decide)).1

/-- C2: with `M = 4`, every call on the current job either rolls the next
counter block `[next_version, next_version + 4)` (keeping the job in the
slot) or — exactly when `next_version + 4` overflows `u16` — clears the job
channel slot and the current job; at counter 65532 the overflow case is
taken: the slot is cleared, the following call blocks, and it stays blocked
until a fresh job is published, after which rolling restarts at counter 0 of
the new job. -/
theorem C2_exhaustion_boundary :
    (∀ (s : GenSt) (J : Job),
        s.current = some J → s.channel = some J → s.midstates = 4 →
        (s.next_version + 4 ≤ 65535 ∧
            (generateStep s).workOf.map versionsOf =
              some (versionBlock s.base_version s.next_version 4) ∧
            (generateStep s).stateOf.map GenSt.channel = some (some J)) ∨
        (¬ s.next_version + 4 ≤ 65535 ∧
            (generateStep s).stateOf.map
                (fun t => (t.channel, t.current)) = some (none, none))) ∧
    (∀ (s : GenSt) (J : Job),
        s.current = some J → s.channel = some J → s.midstates = 4 →
        s.next_version = 65532 → s.eventPending = false →
        s.eventClosed = false →
        (generateStep s).stateOf.map (fun t => (t.channel, t.current)) =
          some (none, none) ∧
        (generateStep s).stateOf.map (fun t => (generateStep t).isBlocked) =
          some true ∧
        (∀ J' : Job,
          (generateStep s).stateOf.map
              (fun t => (generateStep (publish J' t)).workOf.map versionsOf) =
            some (some (versionBlock (J'.version &&& NOT_MASK) 0 4)))) := by
  have hm4 : (4 : Nat) ≤ 65535 := by omega
  constructor
  · intro s J h1 h2 hmid
    by_cases hle : s.next_version + 4 ≤ 65535
    · left
      refine ⟨hle, ?_, ?_⟩ <;>
        rw [generateStep_cont_roll s J h1 h2 (hmid ▸ hm4) (by omega)] <;>
        simp [GenResult.workOf, GenResult.stateOf, versionsOf_mk, hmid, h2]
    · right
      refine ⟨hle, ?_⟩
      rw [generateStep_cont_overflow s J h1 h2 (hmid ▸ hm4) (by omega)]
      simp [GenResult.stateOf]
  · intro s J h1 h2 hmid hnv hp hc
    have hoverflow : ¬ s.next_version + s.midstates ≤ 65535 := by omega
    rw [generateStep_cont_overflow s J h1 h2 (hmid ▸ hm4) hoverflow]
    refine ⟨rfl, ?_, ?_⟩
    · have hblocked : generateStep
          { s with channel := none, current := none, next_version := 0 } =
          .blocked := generateStep_blocked _ rfl hp hc
      simp [GenResult.stateOf, GenResult.isBlocked, hblocked]
    · intro J'
      have hpub : publish J'
          { s with channel := none, current := none, next_version := 0 } =
          { s with channel := some J', current := none, next_version := 0,
                   eventPending := true } := by
        simp [publish]
      have hadopt := generateStep_adopt
          { s with channel := some J', current := none, next_version := 0,
                   eventPending := true } J' rfl rfl rfl
          (by simp [hmid])
      simp only [hmid] at hpub hadopt
      simp [GenResult.stateOf, GenResult.workOf, hpub, hadopt, versionsOf_mk,
            hmid]

/-- C2 witness: the boundary behavior at the concrete state with
`next_version = 65532`, `M = 4`. -/
theorem C2_exhaustion_boundary_witness :
    (generateStep sExh4).stateOf.map (fun t => (t.channel, t.current)) =
      some (none, none) ∧
    (generateStep sExh4).stateOf.map (fun t => (generateStep t).isBlocked) =
      some true :=
  ⟨(C2_exhaustion_boundary.2 sExh4 j0 rfl rfl rfl rfl rfl rfl).1,
   (C2_exhaustion_boundary.2 sExh4 j0 rfl rfl rfl rfl rfl rfl).2.1⟩

/-- C8 (amended): within one adoption span — from the call that adopts a job
until the job is replaced or exhausted — all emitted assignments reference
that job and their midstate version sets are pairwise disjoint (counters
strictly increase, and rolling is injective on the masked base). Re-adoption
of the same job allocation resets the counter and repeats versions, which is
the counterexample. -/
theorem C8_adoption_span_disjoint :
    ∀ (n : Nat) (s : GenSt) (J : Job),
      s.current = none → s.channel = some J → s.eventPending = true →
      s.eventClosed = false → s.midstates ≤ 65535 →
      (∀ w ∈ (genRun s n).2, w.job = J) ∧
      List.Pairwise (fun w1 w2 => ∀ v ∈ versionsOf w1, v ∉ versionsOf w2)
        (genRun s n).2 := by
  intro n s J h1 h2 h3 hc hm
  cases n with
  | zero => simp [genRun]
  | succ n =>
    have hstep := generateStep_adopt s J h1 h2 h3 hm
    have hrun : (genRun s (n + 1)).2 =
        { job := J,
          midstates := midstatesChained J
            (versionBlock (J.version &&& NOT_MASK) 0 s.midstates),
          ntime := J.ntime } ::
        (genRun { s with eventPending := false, current := some J,
                         next_version := s.midstates,
                         base_version := J.version &&& NOT_MASK } n).2 := by
      simp [genRun, hstep]
    obtain ⟨ihJ, ihB, ihP⟩ := genRun_cont_disjoint n
      { s with eventPending := false, current := some J,
               next_version := s.midstates,
               base_version := J.version &&& NOT_MASK } J
      rfl h2 rfl hc hm (base_masked_bits J.version)
    have hw0 : versionsOf
        { job := J,
          midstates := midstatesChained J
            (versionBlock (J.version &&& NOT_MASK) 0 s.midstates),
          ntime := J.ntime } =
        versionBlock (J.version &&& NOT_MASK) 0 s.midstates :=
      versionsOf_mk _ _ _
    rw [hrun]
    constructor
    · intro w hw
      rcases List.mem_cons.mp hw with h | h
      · rw [h]
      · exact ihJ w h
    · refine List.pairwise_cons.mpr ⟨?_, ihP⟩
      intro w2 hw2 v hv hv2
      rw [hw0] at hv
      obtain ⟨c, hc1, hc2, hc3⟩ := mem_versionBlock.mp hv
      obtain ⟨c', hc'1, hc'2, hc'3⟩ := ihB w2 hw2 v hv2
      have hc'1' : s.midstates ≤ c' := hc'1
      have hcc : c = c' := by
        apply rolledVersion_inj (base_masked_bits J.version) (by omega) hc'2
        rw [← hc3, ← hc'3]
      omega

/-- C8 witness: the span property applied to a concrete three-call run on
the fixture job. -/
theorem C8_adoption_span_disjoint_witness :
    (∀ w ∈ (genRun (publish j0 sM4) 3).2, w.job = j0) ∧
    List.Pairwise (fun w1 w2 => ∀ v ∈ versionsOf w1, v ∉ versionsOf w2)
      (genRun (publish j0 sM4) 3).2 :=
  C8_adoption_span_disjoint 3 (publish j0 sM4) j0 rfl rfl rfl rfl (by decide)

/-- C8 counterexample: the same generator, the same job allocation `j0`
(identical `jobId`): after an intervening job `j1` the orchestrator
republishes `j0`; the generator re-adopts it, resets the counter and emits
the very same version set `{0x20000000, ..., 0x20006000}` as the first call
— the two assignments on the identity-equal job are not disjoint, and the
pair `(j0, 0x20000000)` is produced twice in one generator lifetime. -/
theorem C8_counterexample :
    c8run.map (fun w => (w.job.jobId, versionsOf w)) =
      [(0, [0x20000000, 0x20002000, 0x20004000, 0x20006000]),
       (1, [0x00000000, 0x00002000, 0x00004000, 0x00006000]),
       (0, [0x20000000, 0x20002000, 0x20004000, 0x20006000])] ∧
    0x20000000 ∈ versionsOf (c8run.getD 0 { job := j0, midstates := [], ntime := 0 }) ∧
    0x20000000 ∈ versionsOf (c8run.getD 2 { job := j0, midstates := [], ntime := 0 }) := by
  refine ⟨by decide, by decide, by decide⟩

/-- The `i`-th midstate produced by the re-used engine is the chained state
over the blocks of the first `i + 1` versions. -/
theorem midstatesChainedFrom_getD (job : Job) (d : Midstate) :
    ∀ (vs : List Nat) (st : List Nat) (i : Nat), i < vs.length →
      ((midstatesChainedFrom job st vs).getD i d).state =
        chainStateFrom job st (vs.take (i + 1)) := by
  intro vs
  induction vs with
  | nil => intro st i h; simp at h
  | cons v rest ih =>
    intro st i h
    cases i with
    | zero =>
      simp [midstatesChainedFrom, chainStateFrom]
    | succ i =>
      have hstep : chainStateFrom job st (List.take (i + 2) (v :: rest)) =
          chainStateFrom job (sha256Compress st (mkBlockBytes job v))
            (List.take (i + 1) rest) := rfl
      rw [hstep]
      simp only [midstatesChainedFrom, List.getD_cons_succ]
      exact ih _ i (by simpa using h)

/-- C4 (amended): the generator creates one SHA-256 engine before the loop
and re-uses it, so midstate `i` of an assignment equals the engine state
after feeding the blocks of versions `0..i` in order — not an independent
computation per block. Only midstate 0 — hence every midstate when `M = 1`,
the value `WorkGenerator::new` pins — equals the SHA-256 midstate of its own
64-byte block. -/
theorem C4_midstate_engine_reuse :
    (∀ (job : Job) (versions : List Nat) (i : Nat), i < versions.length →
        ((midstatesChained job versions).getD i ⟨0, []⟩).state =
          chainState job (versions.take (i + 1))) ∧
    (∀ (job : Job) (v : Nat) (rest : List Nat),
        ((midstatesChained job (v :: rest)).getD 0 ⟨0, []⟩).state =
          midstateOfOwnBlock job v) ∧
    (∀ (s : GenSt) (J : Job),
        s.current = none → s.channel = some J → s.eventPending = true →
        s.midstates = 1 →
        (generateStep s).workOf.map MiningWork.midstates =
          some [⟨J.version &&& NOT_MASK,
                 midstateOfOwnBlock J (J.version &&& NOT_MASK)⟩]) := by
  refine ⟨fun job versions i h =>
            midstatesChainedFrom_getD job ⟨0, []⟩ versions shaInit i h,
          fun job v rest => rfl,
          fun s J h1 h2 h3 hmid => ?_⟩
  rw [generateStep_adopt s J h1 h2 h3 (by omega)]
  have hvb : versionBlock (J.version &&& NOT_MASK) 0 s.midstates =
      [J.version &&& NOT_MASK] := by
    rw [hmid]
    simp [versionBlock, List.range'_succ]
  rw [GenResult.workOf]
  simp [hvb, midstatesChained, midstatesChainedFrom, midstateOfOwnBlock]

/-- C4 witness: the chained characterization applied at a concrete index. -/
theorem C4_midstate_engine_reuse_witness :
    ((midstatesChained j0 [5, 9]).getD 1 ⟨0, []⟩).state =
      chainState j0 [5, 9] :=
  C4_midstate_engine_reuse.1 j0 [5, 9] 1 (by decide)

/-- C4 counterexample: with `M = 2` on the fixture job, the second midstate
of the first assignment is the engine state after both blocks (versions
0x20000000 then 0x20002000) — it differs from the SHA-256 midstate of its
own block alone, so the midstates are not computed independently. -/
theorem C4_counterexample :
    c4state1 ≠ midstateOfOwnBlock j0 0x20002000 ∧
    c4state1 = sha256Compress (midstateOfOwnBlock j0 0x20000000)
      (mkBlockBytes j0 0x20002000) := by
  refine ⟨by decide, by decide⟩
